import Mathlib

/-!
Verification of the `redis-fluent-keys` schema compiler.

Shallow embedding of `src/packages/redis-fluent-keys/src/index.ts`.

The runtime part of the library is a small recursive schema compiler:

* `p`, `p.number`, `p.boolean` build placeholders (at runtime just a record
  holding `_name`; the value type is a phantom used only for static typing).
* `parameterize` builds a `Parameterized` node after two structural checks.
* `createKeyBuilder` captures a separator (default `":"`) and returns
  `defineSchema`, which runs `processSchemaLevel` over the schema with an
  empty prefix.  `processSchemaLevel` turns every entry into
  a leaf-builder closure (for `KeyDefinition` arrays), a parameterizing
  closure (for `Parameterized` nodes), a recursively compiled sub-object
  (for plain objects), and silently skips `undefined` and unrecognized values.

Closures are modelled by defunctionalization: each compiled node stores
exactly the data the corresponding TypeScript closure captures
(full path / placeholder list / sub-schema / prefix / mapping key), and a
top-level `run` function per node kind is the closure body.  The separator,
captured once per `createKeyBuilder` call and shared by the whole tree, is
threaded as an explicit argument of the run functions.

JavaScript values are modelled as follows: primitives are `Prim`
(strings, integers for the `number` type, booleans), `String(v)` is
`Prim.toText`, an argument object is an association list whose values may be
`none` (JS `null`); an absent key and a `null` binding are both "unresolved",
exactly as in the source (`argValue === undefined || argValue === null`).
Schemas are association lists in insertion order (JS `for...in` enumeration
order for string keys).  Thrown `Error`s become `Except` values carrying a
structured `KeyError`.
-/

set_option autoImplicit false

namespace RedisFluentKeys

/-- The primitive value types a placeholder may carry (`string | number |
boolean`).  JS numbers are modelled as integers; all claims use integral
numbers and `String(n)` is their decimal text. -/
inductive Prim where
  | str (s : String)
  | num (n : Int)
  | bool (b : Bool)
  deriving DecidableEq, Repr

/-- JS `String(v)`: the textual coercion applied by the source to every resolved
argument value (`String(argValue)`). -/
def Prim.toText : Prim → String
  | .str s => s
  | .num n => toString n
  | .bool b => if b then "true" else "false"

/-- Runtime content of a placeholder produced by `p` / `p.number` /
`p.boolean`: only `_name` exists at runtime (`_type` is type-level only). -/
structure Placeholder where
  _name : String
  deriving DecidableEq, Repr

/-- One part of a `KeyDefinition`: a literal string segment or a placeholder. -/
inductive KeyDefinitionPart where
  | lit (s : String)
  | ph (placeholder : Placeholder)
  deriving DecidableEq, Repr

mutual
/-- A schema value as seen by `processSchemaLevel`'s type guards.  `undef`,
`nullVal` and `primVal` model the `undefined` / `null` / primitive values an
untyped caller can put in a schema (the source skips them); `keyDef` is a
`KeyDefinition` array, `param` a `Parameterized` node (placeholders already
normalized to an array, as `parameterizerFunc` does), `nested` a plain
object. -/
inductive SchemaValue where
  | undef
  | nullVal
  | primVal (v : Prim)
  | keyDef (parts : List KeyDefinitionPart)
  | param (placeholders : List Placeholder) (sub : Schema)
  | nested (sub : Schema)

/-- A schema level: an ordered association list of entries, in the object's
key-enumeration order. -/
inductive Schema where
  | nil
  | cons (key : String) (value : SchemaValue) (rest : Schema)
end

/-- The error taxonomy of thrown `Error`s: `configuration` for the two
`parameterize` precondition failures, `missingArgument` for an unresolved
placeholder at call time, carrying the placeholder name and the path hint
embedded in the message. -/
inductive KeyError where
  | configuration (msg : String)
  | missingArgument (name : String) (pathHint : String)
  deriving DecidableEq, Repr

/-- An argument object: bindings in insertion order; a value of `none` is a
JS `null` binding. -/
abbrev ArgsMap : Type := List (String × Option Prim)

/-- Lookup `args?.[name]` followed by the source's
`argValue === undefined || argValue === null` test: `some v` iff the name is
bound to a non-null primitive. -/
def lookupArg (args : ArgsMap) (name : String) : Option Prim :=
  match List.lookup name args with
  | some (some v) => some v
  | _ => none

/-- JS `Array.prototype.join(separator)`. -/
def joinSep (sep : String) : List String → String
  | [] => ""
  | [x] => x
  | x :: y :: rest => x ++ sep ++ joinSep sep (y :: rest)

/-- The raw first argument of `parameterize`: absent (`undefined`/`null`,
falsy), a single placeholder, or an array of placeholders. -/
inductive PlaceholderArg where
  | absent
  | single (ph : Placeholder)
  | array (phs : List Placeholder)
  deriving DecidableEq, Repr

/-- The raw second argument of `parameterize`: a genuine object, or one of
the rejected shapes (`null`, an array, a primitive). -/
inductive SchemaArg where
  | objArg (s : Schema)
  | nullArg
  | arrayArg
  | primArg (v : Prim)

/-- The test `typeof nestedSchema === "object" && nestedSchema !== null &&
!Array.isArray(nestedSchema)` applied by `parameterize` to its second
argument. -/
def SchemaArg.isGenuineObject : SchemaArg → Bool
  | .objArg _ => true
  | .nullArg => false
  | .arrayArg => false
  | .primArg _ => false

/-- The normalization `Array.isArray(paramPlaceholders) ? paramPlaceholders :
[paramPlaceholders]` — the normalization applied inside
`parameterizerFunc` (and used when `parameterize` stores its argument). -/
def placeholdersArray : PlaceholderArg → List Placeholder
  | .absent => []
  | .single ph => [ph]
  | .array phs => phs

/-- The `parameterize` entry point (source lines 183–201): throws
a configuration error when the placeholder argument is falsy or an empty
array, or when the nested schema is not a genuine object; otherwise returns
the `Parameterized` node. -/
def parameterize (placeholder : PlaceholderArg) (nestedSchema : SchemaArg) :
    Except KeyError SchemaValue :=
  match placeholder with
  | .absent =>
      .error (.configuration "[RedisKeyBuilder] parameterize requires at least one placeholder.")
  | .array [] =>
      .error (.configuration "[RedisKeyBuilder] parameterize requires at least one placeholder.")
  | _ =>
      match nestedSchema with
      | .objArg s => .ok (.param (placeholdersArray placeholder) s)
      | _ =>
          .error (.configuration "[RedisKeyBuilder] parameterize requires a valid nested schema object as the second argument.")

/-- The separator capture `options?.separator ?? ":"` in `createKeyBuilder`. -/
def createKeyBuilderSeparator (separatorOption : Option (Option String)) : String :=
  (Option.join separatorOption).getD ":"

/-- The `keyPathHint` computed in the leaf builder's error path: every part
of the full path rendered (literals verbatim, placeholders as their name)
and joined with the separator. -/
def keyPathHint (sep : String) (fullPath : List KeyDefinitionPart) : String :=
  joinSep sep (fullPath.map fun part =>
    match part with
    | .lit s => s
    | .ph q => q._name)

/-- The token-collection loop of the leaf `builder` (source lines 303–326):
walk the full path left to right, emit literals verbatim, resolve
placeholders from the argument object, and fail on the first unresolved one
with its name and the path hint. -/
def resolveParts (args : ArgsMap) (hint : String) :
    List KeyDefinitionPart → Except KeyError (List String)
  | [] => .ok []
  | .lit s :: rest => (resolveParts args hint rest).map (s :: ·)
  | .ph q :: rest =>
      match lookupArg args q._name with
      | none => .error (.missingArgument q._name hint)
      | some v => (resolveParts args hint rest).map (v.toText :: ·)

/-- The leaf `builder` closure body (source lines 302–329): collect the
tokens of the captured full path, then `keyParts.join(separator)`. -/
def builder (sep : String) (fullPathDefinition : List KeyDefinitionPart)
    (args : ArgsMap) : Except KeyError String :=
  (resolveParts args (keyPathHint sep fullPathDefinition) fullPathDefinition).map
    (joinSep sep)

/-- The filter `localDefinition.filter(isPlaceholder)` (source lines 295–299): the
placeholders present locally in a key definition, which alone determine the
leaf's arity. -/
def localPlaceholders (parts : List KeyDefinitionPart) : List Placeholder :=
  parts.filterMap fun part =>
    match part with
    | .ph q => some q
    | .lit _ => none

mutual
/-- A node of the compiled result tree; each constructor stores exactly the
data the corresponding closure captures.  `leafFn` keeps the full path
definition (`[...currentPrefix, ...localDefinition]`) and whether the leaf
was wrapped as an args-taking function (`localPlaceholders.length !== 0`);
`paramFn` keeps the normalized placeholder array, the sub-schema, and the
captured `currentPrefix` / `key`; `subtree` is a recursively compiled
plain-object entry. -/
inductive Compiled where
  | leafFn (fullPathDefinition : List KeyDefinitionPart) (needsArgs : Bool)
  | paramFn (placeholders : List Placeholder) (sub : Schema)
      (pfx : List String) (key : String)
  | subtree (t : CompiledTree)

/-- A compiled schema level: association list in the same order as the input
object's enumeration, minus the skipped entries. -/
inductive CompiledTree where
  | nil
  | cons (key : String) (value : Compiled) (rest : CompiledTree)
end

/-- Property access on a compiled level. -/
def CompiledTree.lookup : CompiledTree → String → Option Compiled
  | .nil, _ => none
  | .cons k v rest, key => if k = key then some v else rest.lookup key

/-- First value bound to `key` at this schema level, if any. -/
def Schema.lookupVal : Schema → String → Option SchemaValue
  | .nil, _ => none
  | .cons k v rest, key => if k = key then some v else rest.lookupVal key

/-- The compiler loop `processSchemaLevel(schemaLevel, currentPrefix)` (source lines 215–358):
one pass over the entries; `undefined` values and unrecognized shapes
(`null`, primitives) are skipped, `Parameterized` nodes become `paramFn`,
arrays become `leafFn` over `prefix ++ parts` (the mapping key is NOT
inserted), plain objects are compiled recursively under `prefix ++ [key]`. -/
def processSchemaLevel : Schema → List String → CompiledTree
  | .nil, _ => .nil
  | .cons key value rest, pfx =>
      match value with
      | .undef => processSchemaLevel rest pfx
      | .param phs sub =>
          .cons key (.paramFn phs sub pfx key)
            (processSchemaLevel rest pfx)
      | .keyDef parts =>
          .cons key
            (.leafFn (pfx.map KeyDefinitionPart.lit ++ parts)
              (!(localPlaceholders parts).isEmpty))
            (processSchemaLevel rest pfx)
      | .nested sub =>
          .cons key (.subtree (processSchemaLevel sub (pfx ++ [key])))
            (processSchemaLevel rest pfx)
      | .nullVal => processSchemaLevel rest pfx
      | .primVal _ => processSchemaLevel rest pfx

/-- The placeholder-resolution loop of `parameterizerFunc` (source lines
258–276): resolve each declared placeholder in order, short-circuiting on
the first missing/null value with the static path `prefix ++ [key]` as
hint. -/
def resolveParams (sep : String) (pfx : List String) (key : String)
    (args : ArgsMap) : List Placeholder → Except KeyError (List String)
  | [] => .ok []
  | q :: rest =>
      match lookupArg args q._name with
      | none =>
          .error (.missingArgument q._name (joinSep sep (pfx ++ [key])))
      | some v =>
          (resolveParams sep pfx key args rest).map (v.toText :: ·)

/-- The `parameterizerFunc` closure body (source lines 257–282): resolve the
declared placeholders, then recompile the sub-schema against
`[...currentPrefix, key, ...paramValues]`. -/
def parameterizerFunc (sep : String) (placeholders : List Placeholder)
    (sub : Schema) (pfx : List String) (key : String)
    (args : ArgsMap) : Except KeyError CompiledTree :=
  (resolveParams sep pfx key args placeholders).map fun paramValues =>
    processSchemaLevel sub (pfx ++ [key] ++ paramValues)

/-- Calling a compiled tree entry as a leaf builder.  A zero-arity leaf was
wrapped as `() => builder()`, so the caller's argument object is discarded
and `builder` runs with `args === undefined` (empty map). -/
def callLeaf (sep : String) : Compiled → ArgsMap → Option (Except KeyError String)
  | .leafFn fullPath needsArgs, args =>
      some (builder sep fullPath (if needsArgs then args else []))
  | _, _ => none

/-- Calling a compiled tree entry as a parameterizing function. -/
def callParam (sep : String) : Compiled → ArgsMap →
    Option (Except KeyError CompiledTree)
  | .paramFn phs sub pfx key, args =>
      some (parameterizerFunc sep phs sub pfx key args)
  | _, _ => none

/-- Call `compiled.k(args)` for a leaf property `k`. -/
def callLeafAt (sep : String) (t : CompiledTree) (key : String)
    (args : ArgsMap) : Option (Except KeyError String) :=
  (t.lookup key).bind fun c => callLeaf sep c args

/-- The `defineSchema` entry point: run the compiler from an empty prefix. -/
def defineSchema (schema : Schema) : CompiledTree :=
  processSchemaLevel schema []

/-- The coerced text an argument object supplies for a placeholder name
(`String(args[name])`), defaulting to the empty string when unresolved; the
default is never reached in theorems that assume every placeholder
resolves. -/
def phToken (args : ArgsMap) (q : Placeholder) : String :=
  ((lookupArg args q._name).getD (.str "")).toText

/-- The token a fully resolved call emits for one path part: literals
verbatim, placeholders via `phToken`. -/
def partToken (args : ArgsMap) : KeyDefinitionPart → String
  | .lit s => s
  | .ph q => phToken args q

/-- Schema values `processSchemaLevel` skips without producing a property:
`undefined` (source line 234) and the unrecognized shapes handled by the
final `else` branch (source lines 347–354). -/
def skippable : SchemaValue → Bool
  | .undef => true
  | .nullVal => true
  | .primVal _ => true
  | .keyDef _ => false
  | .param _ _ => false
  | .nested _ => false

/-- True when every value bound to `key` at this schema level is one the
compiler skips. -/
def allSkippedAt : Schema → String → Bool
  | .nil, _ => true
  | .cons k v rest, key =>
      (decide (k ≠ key) || skippable v) && allSkippedAt rest key

/-! Helper lemmas shared by the claim theorems. -/

@[simp] theorem localPlaceholders_nil : localPlaceholders [] = [] := rfl

@[simp] theorem localPlaceholders_lit (s : String) (rest : List KeyDefinitionPart) :
    localPlaceholders (.lit s :: rest) = localPlaceholders rest := rfl

@[simp] theorem localPlaceholders_ph (q : Placeholder) (rest : List KeyDefinitionPart) :
    localPlaceholders (.ph q :: rest) = q :: localPlaceholders rest := rfl

theorem except_map_ok {α β γ : Type} (f : α → β) (e : Except γ α) (o : β)
    (h : e.map f = .ok o) : ∃ t, e = .ok t ∧ o = f t := by
  cases e with
  | error err => simp [Except.map] at h
  | ok t => exact ⟨t, rfl, by simpa [Except.map] using h.symm⟩

theorem resolveParts_hint (args : ArgsMap) (h1 h2 : String) :
    ∀ (path : List KeyDefinitionPart) (ts : List String),
      resolveParts args h1 path = .ok ts → resolveParts args h2 path = .ok ts
  | [], _, h => h
  | .lit s :: rest, ts, h => by
      simp only [resolveParts] at h ⊢
      obtain ⟨t, ht, hts⟩ := except_map_ok _ _ _ h
      rw [resolveParts_hint args h1 h2 rest t ht, hts]
      rfl
  | .ph q :: rest, ts, h => by
      simp only [resolveParts] at h ⊢
      cases hq : lookupArg args q._name with
      | none => simp [hq] at h
      | some v =>
          simp only [hq] at h ⊢
          obtain ⟨t, ht, hts⟩ := except_map_ok _ _ _ h
          rw [resolveParts_hint args h1 h2 rest t ht, hts]
          rfl

theorem resolveParts_length (args : ArgsMap) (hint : String) :
    ∀ (path : List KeyDefinitionPart) (ts : List String),
      resolveParts args hint path = .ok ts → ts.length = path.length
  | [], ts, h => by
      simp only [resolveParts, Except.ok.injEq] at h
      simp [← h]
  | .lit s :: rest, ts, h => by
      simp only [resolveParts] at h
      obtain ⟨t, ht, hts⟩ := except_map_ok _ _ _ h
      simp [hts, resolveParts_length args hint rest t ht]
  | .ph q :: rest, ts, h => by
      simp only [resolveParts] at h
      cases hq : lookupArg args q._name with
      | none => simp [hq] at h
      | some v =>
          simp only [hq] at h
          obtain ⟨t, ht, hts⟩ := except_map_ok _ _ _ h
          simp [hts, resolveParts_length args hint rest t ht]

theorem resolveParts_resolved (args : ArgsMap) (hint : String) :
    ∀ path : List KeyDefinitionPart,
      (∀ q ∈ localPlaceholders path, (lookupArg args q._name).isSome) →
      resolveParts args hint path = .ok (path.map (partToken args))
  | [], _ => rfl
  | .lit s :: rest, h => by
      simp only [resolveParts, List.map_cons]
      rw [resolveParts_resolved args hint rest (by simpa using h)]
      rfl
  | .ph q :: rest, h => by
      have hq : (lookupArg args q._name).isSome := h q (by simp)
      obtain ⟨v, hv⟩ := Option.isSome_iff_exists.mp hq
      simp only [resolveParts, hv, List.map_cons]
      rw [resolveParts_resolved args hint rest (fun r hr => h r (by simp [hr]))]
      simp [partToken, phToken, hv, Except.map]

theorem resolveParts_error_first (args : ArgsMap) (hint : String) (q : Placeholder)
    (hq : lookupArg args q._name = none) :
    ∀ (pre rest : List KeyDefinitionPart),
      (∀ r ∈ localPlaceholders pre, (lookupArg args r._name).isSome) →
      resolveParts args hint (pre ++ .ph q :: rest)
        = .error (.missingArgument q._name hint)
  | [], rest, _ => by simp [resolveParts, hq]
  | .lit s :: pre, rest, h => by
      simp only [List.cons_append, resolveParts, List.append_eq]
      rw [resolveParts_error_first args hint q hq pre rest (by simpa using h)]
      rfl
  | .ph r :: pre, rest, h => by
      have hr := h r (by simp)
      obtain ⟨v, hv⟩ := Option.isSome_iff_exists.mp hr
      simp only [List.cons_append, resolveParts, hv, List.append_eq]
      rw [resolveParts_error_first args hint q hq pre rest (fun x hx => h x (by simp [hx]))]
      rfl

theorem resolveParams_resolved (sep : String) (P : List String) (k : String)
    (args : ArgsMap) :
    ∀ phs : List Placeholder,
      (∀ q ∈ phs, (lookupArg args q._name).isSome) →
      resolveParams sep P k args phs = .ok (phs.map (phToken args))
  | [], _ => rfl
  | q :: rest, h => by
      have hq : (lookupArg args q._name).isSome := h q (by simp)
      obtain ⟨v, hv⟩ := Option.isSome_iff_exists.mp hq
      simp only [resolveParams, hv, List.map_cons]
      rw [resolveParams_resolved sep P k args rest (fun r hr => h r (by simp [hr]))]
      simp [phToken, hv, Except.map]

theorem resolveParams_error_first (sep : String) (P : List String) (k : String)
    (args : ArgsMap) (q : Placeholder) (hq : lookupArg args q._name = none) :
    ∀ (pre rest : List Placeholder),
      (∀ r ∈ pre, (lookupArg args r._name).isSome) →
      resolveParams sep P k args (pre ++ q :: rest)
        = .error (.missingArgument q._name (joinSep sep (P ++ [k])))
  | [], rest, _ => by simp [resolveParams, hq]
  | r :: pre, rest, h => by
      have hr := h r (by simp)
      obtain ⟨v, hv⟩ := Option.isSome_iff_exists.mp hr
      simp only [List.cons_append, resolveParams, hv, List.append_eq]
      rw [resolveParams_error_first sep P k args q hq pre rest (fun x hx => h x (by simp [hx]))]
      rfl

theorem processSchemaLevel_lookup_keyDef (P : List String) (k : String)
    (parts : List KeyDefinitionPart) :
    ∀ s : Schema, s.lookupVal k = some (.keyDef parts) →
      (processSchemaLevel s P).lookup k
        = some (.leafFn (P.map KeyDefinitionPart.lit ++ parts)
            (!(localPlaceholders parts).isEmpty))
  | .nil, h => by simp [Schema.lookupVal] at h
  | .cons k' v rest, h => by
      by_cases hk : k' = k
      · subst hk
        have h' : v = .keyDef parts := by simpa [Schema.lookupVal] using h
        subst h'
        simp [processSchemaLevel, CompiledTree.lookup]
      · simp only [Schema.lookupVal, if_neg hk] at h
        have ih := processSchemaLevel_lookup_keyDef P k parts rest h
        cases v <;> simp [processSchemaLevel, CompiledTree.lookup, hk, ih]

theorem processSchemaLevel_lookup_nested (P : List String) (k : String)
    (sub : Schema) :
    ∀ s : Schema, s.lookupVal k = some (.nested sub) →
      (processSchemaLevel s P).lookup k
        = some (.subtree (processSchemaLevel sub (P ++ [k])))
  | .nil, h => by simp [Schema.lookupVal] at h
  | .cons k' v rest, h => by
      by_cases hk : k' = k
      · subst hk
        have h' : v = .nested sub := by simpa [Schema.lookupVal] using h
        subst h'
        simp [processSchemaLevel, CompiledTree.lookup]
      · simp only [Schema.lookupVal, if_neg hk] at h
        have ih := processSchemaLevel_lookup_nested P k sub rest h
        cases v <;> simp [processSchemaLevel, CompiledTree.lookup, hk, ih]

theorem processSchemaLevel_lookup_param (P : List String) (k : String)
    (phs : List Placeholder) (sub : Schema) :
    ∀ s : Schema, s.lookupVal k = some (.param phs sub) →
      (processSchemaLevel s P).lookup k = some (.paramFn phs sub P k)
  | .nil, h => by simp [Schema.lookupVal] at h
  | .cons k' v rest, h => by
      by_cases hk : k' = k
      · subst hk
        have h' : v = .param phs sub := by simpa [Schema.lookupVal] using h
        subst h'
        simp [processSchemaLevel, CompiledTree.lookup]
      · simp only [Schema.lookupVal, if_neg hk] at h
        have ih := processSchemaLevel_lookup_param P k phs sub rest h
        cases v <;> simp [processSchemaLevel, CompiledTree.lookup, hk, ih]

theorem processSchemaLevel_lookup_skipped (P : List String) (k : String) :
    ∀ s : Schema, allSkippedAt s k = true →
      (processSchemaLevel s P).lookup k = none
  | .nil, _ => rfl
  | .cons k' v rest, h => by
      simp only [allSkippedAt, Bool.and_eq_true, Bool.or_eq_true,
        decide_eq_true_eq] at h
      obtain ⟨h1, h2⟩ := h
      have ih := processSchemaLevel_lookup_skipped P k rest h2
      cases v with
      | undef => simpa [processSchemaLevel] using ih
      | nullVal => simpa [processSchemaLevel] using ih
      | primVal v => simpa [processSchemaLevel] using ih
      | keyDef parts =>
          rcases h1 with h1 | h1
          · simp [processSchemaLevel, CompiledTree.lookup, h1, ih]
          · simp [skippable] at h1
      | param phs sub =>
          rcases h1 with h1 | h1
          · simp [processSchemaLevel, CompiledTree.lookup, h1, ih]
          · simp [skippable] at h1
      | nested sub =>
          rcases h1 with h1 | h1
          · simp [processSchemaLevel, CompiledTree.lookup, h1, ih]
          · simp [skippable] at h1

@[simp] theorem partToken_lit (args : ArgsMap) (s : String) :
    partToken args (.lit s) = s := rfl

theorem localPlaceholders_map_lit (ls : List String) :
    localPlaceholders (ls.map KeyDefinitionPart.lit) = [] := by
  induction ls with
  | nil => rfl
  | cons s rest ih => simpa using ih

/-! The claim theorems. -/

/-- C1: a compiled leaf coming from a Key Definition stored under mapping key
`k` with accumulated prefix `P` carries exactly the token template
`P ++ parts`; the mapping key `k` itself is never inserted into the path.
By contrast a Nested Schema entry is compiled against `P ++ [k]`, and a
Parameterized Node entry captures `P` and `k` and, on a successful call,
compiles its sub-schema against `P ++ [k] ++ values`. -/
theorem keyDefinition_ignores_mapping_key (s : Schema) (P : List String)
    (k : String) :
    (∀ parts, s.lookupVal k = some (.keyDef parts) →
      (processSchemaLevel s P).lookup k
        = some (.leafFn (P.map KeyDefinitionPart.lit ++ parts)
            (!(localPlaceholders parts).isEmpty)))
    ∧ (∀ sub, s.lookupVal k = some (.nested sub) →
      (processSchemaLevel s P).lookup k
        = some (.subtree (processSchemaLevel sub (P ++ [k]))))
    ∧ (∀ phs sub, s.lookupVal k = some (.param phs sub) →
      (processSchemaLevel s P).lookup k = some (.paramFn phs sub P k)
      ∧ ∀ sep args vals, resolveParams sep P k args phs = .ok vals →
          parameterizerFunc sep phs sub P k args
            = .ok (processSchemaLevel sub (P ++ [k] ++ vals))) :=
  ⟨fun parts h => processSchemaLevel_lookup_keyDef P k parts s h,
   fun sub h => processSchemaLevel_lookup_nested P k sub s h,
   fun phs sub h => ⟨processSchemaLevel_lookup_param P k phs sub s h,
     fun sep args vals hv => by simp [parameterizerFunc, hv, Except.map]⟩⟩

/-- Witness for C1: `appConfig: ["config"]` compiled under prefix `["p"]`
keeps only `["p", "config"]`; the mapping key `appConfig` is dropped. -/
theorem keyDefinition_ignores_mapping_key_witness :
    (processSchemaLevel
        (Schema.cons "appConfig" (.keyDef [.lit "config"]) Schema.nil)
        ["p"]).lookup "appConfig"
      = some (.leafFn [.lit "p", .lit "config"] false) :=
  (keyDefinition_ignores_mapping_key
      (Schema.cons "appConfig" (.keyDef [.lit "config"]) Schema.nil) ["p"]
      "appConfig").1 [.lit "config"] rfl

/-- C2: a Key Definition `[a, p("x"), b]` compiled at the top level with
separator `sep` and called with `{x: v}` for a non-null primitive `v` yields
exactly `a ++ sep ++ String(v) ++ sep ++ b`; in particular the schema
`{user: ["user", p("id")]}` with the default separator gives
`compiled.user({id: "42"}) = "user:42"`. -/
theorem placeholder_round_trip (k a b xname sep : String) (v : Prim) :
    callLeafAt sep
      (defineSchema
        (Schema.cons k (.keyDef [.lit a, .ph ⟨xname⟩, .lit b]) Schema.nil))
      k [(xname, some v)]
      = some (.ok (a ++ sep ++ v.toText ++ sep ++ b))
    ∧ callLeafAt (createKeyBuilderSeparator none)
        (defineSchema
          (Schema.cons "user" (.keyDef [.lit "user", .ph ⟨"id"⟩]) Schema.nil))
        "user" [("id", some (.str "42"))]
      = some (.ok "user:42") := by
  constructor
  · simp [callLeafAt, defineSchema, processSchemaLevel, CompiledTree.lookup,
      callLeaf, builder, resolveParts, lookupArg, List.lookup, joinSep,
      Except.map, String.append_assoc]
  · rfl

/-- C3: a parameterizing function compiled under key `k` with prefix `P`,
called with a mapping that resolves every declared placeholder, resolves
them in declared order, coerces each value with `String(·)`, appends
`[k, ...values]` to the prefix, and returns the freshly compiled sub-tree;
`{b: 1, a: "z"}` against declared order `[a, b]` yields tokens `["z", "1"]`
regardless of the mapping's own key order, and
`parameterize(p("id"), {leaf: ["x"]})` under `"k"` called with `{id: "7"}`
then `leaf` yields `k<sep>7<sep>x`. -/
theorem parameterization_threading (sep : String) (phs : List Placeholder)
    (sub : Schema) (P : List String) (k : String) (args : ArgsMap) :
    ((∀ q ∈ phs, (lookupArg args q._name).isSome) →
      parameterizerFunc sep phs sub P k args
        = .ok (processSchemaLevel sub (P ++ [k] ++ phs.map (phToken args))))
    ∧ resolveParams sep [] "lvl" [("b", some (.num 1)), ("a", some (.str "z"))]
        [⟨"a"⟩, ⟨"b"⟩] = .ok ["z", "1"]
    ∧ (parameterizerFunc sep [⟨"id"⟩]
          (Schema.cons "leaf" (.keyDef [.lit "x"]) Schema.nil) [] "k"
          [("id", some (.str "7"))]).map (fun t => callLeafAt sep t "leaf" [])
        = .ok (some (.ok ("k" ++ sep ++ "7" ++ sep ++ "x"))) := by
  refine ⟨fun h => ?_, ?_, ?_⟩
  · simp [parameterizerFunc, resolveParams_resolved sep P k args phs h,
      Except.map]
  · rfl
  · simp [parameterizerFunc, resolveParams, lookupArg, List.lookup, Except.map,
      processSchemaLevel, callLeafAt, CompiledTree.lookup, callLeaf, builder,
      resolveParts, joinSep, Prim.toText, String.append_assoc]

/-- Witness for C3: the fully resolved call of the concrete parameterizer. -/
theorem parameterization_threading_witness :
    parameterizerFunc ":" [⟨"id"⟩]
        (Schema.cons "leaf" (.keyDef [.lit "x"]) Schema.nil) [] "k"
        [("id", some (.str "7"))]
      = .ok (processSchemaLevel
          (Schema.cons "leaf" (.keyDef [.lit "x"]) Schema.nil)
          ([] ++ ["k"]
            ++ [Placeholder.mk "id"].map (phToken [("id", some (.str "7"))]))) :=
  (parameterization_threading ":" [⟨"id"⟩]
      (Schema.cons "leaf" (.keyDef [.lit "x"]) Schema.nil) [] "k"
      [("id", some (.str "7"))]).1 (by decide)

/-- C4: a leaf builder fails on the first unresolved placeholder in the
path's left-to-right order, naming it together with the rendering of the
whole path template (literals verbatim, placeholders as their names); for
parts `[p(n1), p(n2)]` and an empty mapping the error names `n1`, not
`n2`. -/
theorem leaf_missing_argument_first_in_path (sep : String) (args : ArgsMap)
    (pre rest : List KeyDefinitionPart) (q : Placeholder)
    (hpre : ∀ r ∈ localPlaceholders pre, (lookupArg args r._name).isSome)
    (hq : lookupArg args q._name = none) :
    builder sep (pre ++ .ph q :: rest) args
      = .error (.missingArgument q._name
          (keyPathHint sep (pre ++ .ph q :: rest)))
    ∧ ∀ n1 n2 : String, builder sep [.ph ⟨n1⟩, .ph ⟨n2⟩] []
        = .error (.missingArgument n1 (joinSep sep [n1, n2])) := by
  constructor
  · simp [builder, resolveParts_error_first args _ q hq pre rest hpre,
      Except.map]
  · intro n1 n2
    rfl

/-- Witness for C4: the first unresolved placeholder of `["u", p("a"),
p("b")]` under the empty mapping is `a`. -/
theorem leaf_missing_argument_first_in_path_witness :
    builder ":" ([.lit "u"] ++ .ph ⟨"a"⟩ :: [.ph ⟨"b"⟩]) []
      = .error (.missingArgument "a"
          (keyPathHint ":" ([.lit "u"] ++ .ph ⟨"a"⟩ :: [.ph ⟨"b"⟩]))) :=
  (leaf_missing_argument_first_in_path ":" [] [.lit "u"] [.ph ⟨"b"⟩] ⟨"a"⟩
    (by decide) rfl).1

/-- C5: a parameterizing function fails on the first unresolved placeholder
in declared order, naming it and the static path `prefix ++ [key]`; the
result does not depend on the placeholders declared after the first
unresolved one (short-circuit). -/
theorem parameterizer_missing_argument_first_declared (sep : String)
    (P : List String) (k : String) (args : ArgsMap) (sub : Schema)
    (pre rest : List Placeholder) (q : Placeholder)
    (hpre : ∀ r ∈ pre, (lookupArg args r._name).isSome)
    (hq : lookupArg args q._name = none) :
    parameterizerFunc sep (pre ++ q :: rest) sub P k args
      = .error (.missingArgument q._name (joinSep sep (P ++ [k]))) := by
  simp [parameterizerFunc,
    resolveParams_error_first sep P k args q hq pre rest hpre, Except.map]

/-- Witness for C5: declared order `[a, b]`, mapping supplying only `b`:
the error names `a` and the static path `p:k`. -/
theorem parameterizer_missing_argument_first_declared_witness :
    parameterizerFunc ":" ([] ++ ⟨"a"⟩ :: [⟨"b"⟩]) Schema.nil ["p"] "k"
        [("b", some (.str "1"))]
      = .error (.missingArgument "a" (joinSep ":" (["p"] ++ ["k"]))) :=
  parameterizer_missing_argument_first_declared ":" ["p"] "k"
    [("b", some (.str "1"))] Schema.nil [] [⟨"b"⟩] ⟨"a"⟩ (by decide) rfl

/-- C6: `parameterize` fails with a `ConfigurationError` exactly when the
placeholder argument is absent or an empty array, or the nested-schema
argument is not a genuine object; otherwise it returns the Parameterized
node (normalized placeholder array plus schema) with no further
validation. -/
theorem parameterize_precondition_errors (pa : PlaceholderArg) (sa : SchemaArg) :
    ((∃ msg, parameterize pa sa = .error (.configuration msg))
      ↔ pa = .absent ∨ pa = .array [] ∨ sa.isGenuineObject = false)
    ∧ (∀ s : Schema, pa ≠ .absent → pa ≠ .array [] →
        parameterize pa (.objArg s) = .ok (.param (placeholdersArray pa) s)) := by
  constructor
  · cases pa with
    | absent => cases sa <;> simp [parameterize, SchemaArg.isGenuineObject]
    | single ph => cases sa <;> simp [parameterize, SchemaArg.isGenuineObject]
    | array phs =>
        cases phs with
        | nil => cases sa <;> simp [parameterize, SchemaArg.isGenuineObject]
        | cons p0 ps => cases sa <;> simp [parameterize, SchemaArg.isGenuineObject]
  · intro s hab hae
    cases pa with
    | absent => exact absurd rfl hab
    | single ph => rfl
    | array phs =>
        cases phs with
        | nil => exact absurd rfl hae
        | cons p0 ps => rfl

/-- Witness for C6: a well-formed call returns the node. -/
theorem parameterize_precondition_errors_witness :
    parameterize (.single ⟨"x"⟩) (.objArg Schema.nil)
      = .ok (.param (placeholdersArray (.single ⟨"x"⟩)) Schema.nil) :=
  (parameterize_precondition_errors (.single ⟨"x"⟩) (.objArg Schema.nil)).2
    Schema.nil (by decide) (by decide)

/-- C7: compilation skips entries bound to `undefined` or to an unrecognized
shape: when every value bound to `k` at a level is such a value, the
compiled level has no property `k`; the compiler is a total function, so it
throws nothing for these entries. -/
theorem compiler_skips_unrecognized_entries (s : Schema) (P : List String)
    (k : String) (h : allSkippedAt s k = true) :
    (processSchemaLevel s P).lookup k = none :=
  processSchemaLevel_lookup_skipped P k s h

/-- Witness for C7: an `undefined` entry produces no property while a
sibling survives compilation. -/
theorem compiler_skips_unrecognized_entries_witness :
    (processSchemaLevel
        (Schema.cons "gone" .undef
          (Schema.cons "bad" (.primVal (.num 3))
            (Schema.cons "ok" (.keyDef [.lit "x"]) Schema.nil))) []).lookup
        "gone" = none :=
  compiler_skips_unrecognized_entries
    (Schema.cons "gone" .undef
      (Schema.cons "bad" (.primVal (.num 3))
        (Schema.cons "ok" (.keyDef [.lit "x"]) Schema.nil))) [] "gone"
    (by decide)

/-- C8: for the same leaf and arguments, the outputs under two different
separators are the same token list joined with the respective separator —
they differ only at the separator occurrences. -/
theorem separator_substitution (s1 s2 : String)
    (fullPath : List KeyDefinitionPart) (args : ArgsMap) (out1 out2 : String)
    (hne : s1 ≠ s2)
    (h1 : builder s1 fullPath args = .ok out1)
    (h2 : builder s2 fullPath args = .ok out2) :
    ∃ tokens : List String,
      out1 = joinSep s1 tokens ∧ out2 = joinSep s2 tokens := by
  have h1' : (resolveParts args (keyPathHint s1 fullPath) fullPath).map
      (joinSep s1) = .ok out1 := h1
  have h2' : (resolveParts args (keyPathHint s2 fullPath) fullPath).map
      (joinSep s2) = .ok out2 := h2
  obtain ⟨t1, ht1, ho1⟩ := except_map_ok _ _ _ h1'
  obtain ⟨t2, ht2, ho2⟩ := except_map_ok _ _ _ h2'
  have heq := resolveParts_hint args (keyPathHint s1 fullPath)
    (keyPathHint s2 fullPath) fullPath t1 ht1
  rw [heq] at ht2
  injection ht2 with ht2
  subst ht2
  exact ⟨t1, ho1, ho2⟩

/-- Witness for C8 at `["a", p("x")]` with `{x: "1"}`. -/
theorem separator_substitution_witness :
    ∃ tokens : List String,
      "a:1" = joinSep ":" tokens ∧ "a-1" = joinSep "-" tokens :=
  separator_substitution ":" "-" [.lit "a", .ph ⟨"x"⟩]
    [("x", some (.str "1"))] "a:1" "a-1" (by decide) rfl rfl

/-- C9: the leaf builder joins every emitted token without filtering empty
segments: a successful build emits exactly one token per path part, an
all-literal path is joined verbatim, and an empty literal segment leaves the
separator adjacent to an empty token. -/
theorem empty_segments_not_filtered (sep : String) (args : ArgsMap) :
    (∀ fullPath out, builder sep fullPath args = .ok out →
      ∃ tokens : List String, tokens.length = fullPath.length
        ∧ out = joinSep sep tokens)
    ∧ (∀ ls : List String, builder sep (ls.map KeyDefinitionPart.lit) args
        = .ok (joinSep sep ls))
    ∧ (∀ a b : String, builder sep [.lit a, .lit "", .lit b] args
        = .ok (a ++ sep ++ sep ++ b)) := by
  refine ⟨fun fullPath out h => ?_, fun ls => ?_, fun a b => ?_⟩
  · have h' : (resolveParts args (keyPathHint sep fullPath) fullPath).map
        (joinSep sep) = .ok out := h
    obtain ⟨t, ht, ho⟩ := except_map_ok _ _ _ h'
    exact ⟨t, resolveParts_length args _ fullPath t ht, ho⟩
  · have hres := resolveParts_resolved args
      (keyPathHint sep (ls.map KeyDefinitionPart.lit))
      (ls.map KeyDefinitionPart.lit) (by simp [localPlaceholders_map_lit])
    show (resolveParts args _ _).map (joinSep sep) = _
    rw [hres]
    have hcomp : (partToken args ∘ KeyDefinitionPart.lit) = id := funext fun s => rfl
    simp [Except.map, List.map_map, hcomp]
  · simp [builder, resolveParts, joinSep, Except.map, keyPathHint,
      String.append_assoc]

/-- Witness for C9: `["a", "", "b"]` emits three tokens and `"a::b"`. -/
theorem empty_segments_not_filtered_witness :
    ∃ tokens : List String, tokens.length = 3
      ∧ "a::b" = joinSep ":" tokens :=
  (empty_segments_not_filtered ":" []).1 [.lit "a", .lit "", .lit "b"] "a::b"
    rfl

/-- C10: duplicate placeholder names inside one Key Definition are accepted
with a single argument entry: every occurrence of the name receives the same
coerced value and the call succeeds (no duplicate-name error exists at
construction or call time); concretely `[p(n), "m", p(n)]` called with
`{n: v}` yields `String(v)<sep>m<sep>String(v)`. -/
theorem duplicate_placeholder_names_ok (sep : String)
    (parts : List KeyDefinitionPart) (args : ArgsMap)
    (h : ∀ q ∈ localPlaceholders parts, (lookupArg args q._name).isSome) :
    builder sep parts args = .ok (joinSep sep (parts.map (partToken args)))
    ∧ ∀ (k n : String) (v : Prim),
        callLeafAt sep
          (defineSchema
            (Schema.cons k (.keyDef [.ph ⟨n⟩, .lit "m", .ph ⟨n⟩]) Schema.nil))
          k [(n, some v)]
          = some (.ok (v.toText ++ sep ++ "m" ++ sep ++ v.toText)) := by
  constructor
  · show (resolveParts args _ parts).map (joinSep sep) = _
    rw [resolveParts_resolved args _ parts h]
    rfl
  · intro k n v
    simp [callLeafAt, defineSchema, processSchemaLevel, CompiledTree.lookup,
      callLeaf, builder, resolveParts, lookupArg, List.lookup, joinSep,
      Except.map, String.append_assoc]

/-- Witness for C10: the duplicate-name leaf `[p("n"), "m", p("n")]` with
`{n: "7"}`. -/
theorem duplicate_placeholder_names_ok_witness :
    builder ":" [.ph ⟨"n"⟩, .lit "m", .ph ⟨"n"⟩] [("n", some (.str "7"))]
      = .ok (joinSep ":" ([.ph ⟨"n"⟩, .lit "m", .ph ⟨"n"⟩].map
          (partToken [("n", some (.str "7"))]))) :=
  (duplicate_placeholder_names_ok ":" [.ph ⟨"n"⟩, .lit "m", .ph ⟨"n"⟩]
    [("n", some (.str "7"))] (by decide)).1

end RedisFluentKeys
